import Mathlib

/-!
Verification of the observation-replay optimization driver of
`botorchsampler-candidate_funcs` (files `main.py` and `plot.py`).

The repository's own logic is shallowly embedded below:

* observations are parallel lists `Xs : List (List ℚ)` / `ys : List (List ℚ)`
  (numpy arrays of shape `(n, x_dim)` / `(n, y_dim)`);
* an optuna study is a record of a direction, a sampler and a list of
  registered frozen trials; `study.add_trial` appends;
* the external library's candidate generation (`study.ask()` followed by
  `trial.suggest_float` / `trial.suggest_categorical`) is abstracted as an
  oracle `ask : Study → String → Distribution → ℚ`; the optuna API contract
  (suggested values lie in the declared distribution) is an explicit
  hypothesis where a claim depends on it;
* the external test function `func.f` maps an `n × dim` batch to an `n × 1`
  batch row-wise; it is abstracted as `f : List ℚ → ℚ` applied per row;
* fallible Python operations (`y[0]` on an empty row, attribute access on a
  never-assigned `self.sampler`) are modelled with `Option`;
* numpy aliasing/mutation questions are settled against a store model in
  which arrays live in cells of a `Store` and every numpy operation used by
  the code (`copy`, `concatenate`) allocates a fresh cell.
-/

/-! ## plot.py: the best-so-far transform -/

/-- `get_best_ys` body from `plot.py`, with the running best carried
explicitly: `none` models the initial `best_y = np.inf`. -/
def get_best_ys_aux (best : Option ℚ) : List ℚ → List ℚ
  | [] => []
  | y :: rest =>
    let best' : ℚ :=
      match best with
      | none => y
      | some b => if y < b then y else b
    best' :: get_best_ys_aux (some best') rest

/-- `plot.py` `get_best_ys`: starts from `best_y = np.inf`, then for each
element keeps the smaller of the running best and the element, appending the
running best at every position. -/
def get_best_ys (ys : List ℚ) : List ℚ :=
  get_best_ys_aux none ys

theorem get_best_ys_aux_length (best : Option ℚ) (ys : List ℚ) :
    (get_best_ys_aux best ys).length = ys.length := by
  induction ys generalizing best with
  | nil => rfl
  | cons y rest ih => simp [get_best_ys_aux, ih]

theorem get_best_ys_length (ys : List ℚ) :
    (get_best_ys ys).length = ys.length :=
  get_best_ys_aux_length none ys

theorem get_best_ys_aux_some (b : ℚ) (y : ℚ) (rest : List ℚ) :
    get_best_ys_aux (some b) (y :: rest) =
      min b y :: get_best_ys_aux (some (min b y)) rest := by
  have h : (if y < b then y else b) = min b y := by
    rcases le_or_lt b y with h | h
    · simp [min_eq_left h, if_neg (not_lt.mpr h)]
    · simp [min_eq_right h.le, if_pos h]
  simp only [get_best_ys_aux, h]

theorem get_best_ys_aux_getElem (ys : List ℚ) (b : ℚ) (i : Nat) :
    (get_best_ys_aux (some b) ys)[i]? =
      if i < ys.length then some ((ys.take (i + 1)).foldl min b) else none := by
  induction ys generalizing b i with
  | nil => simp [get_best_ys_aux]
  | cons y rest ih =>
    rw [get_best_ys_aux_some]
    cases i with
    | zero => simp
    | succ i =>
      simp only [List.getElem?_cons_succ, List.take_succ_cons, List.foldl_cons,
        List.length_cons, Nat.add_lt_add_iff_right]
      exact ih (min b y) i

theorem foldl_min_elim (l : List ℚ) (y : ℚ) :
    List.foldl min y l = l.min?.elim y (min y) := by
  induction l generalizing y with
  | nil => rfl
  | cons a l ih =>
    rw [List.foldl_cons, ih (min y a), List.min?_cons]
    cases h : l.min? with
    | none => simp [h]
    | some m => simp [h, min_assoc]

/-- **C6**: `get_best_ys` returns a sequence of the same length as its
input whose `i`-th element is the minimum of `ys[0..i]` (the running
minimum of the observed values up to and including index `i`). -/
theorem get_best_ys_is_running_min (ys : List ℚ) (i : Nat) (h : i < ys.length) :
    (get_best_ys ys).length = ys.length ∧
      (get_best_ys ys)[i]? = (ys.take (i + 1)).min? := by
  refine ⟨get_best_ys_length ys, ?_⟩
  cases ys with
  | nil => simp at h
  | cons y rest =>
    show (y :: get_best_ys_aux (some y) rest)[i]? = _
    cases i with
    | zero => simp [List.min?_cons]
    | succ i =>
      simp only [List.getElem?_cons_succ, List.take_succ_cons]
      rw [get_best_ys_aux_getElem]
      simp only [List.length_cons, Nat.add_lt_add_iff_right] at h
      rw [if_pos h, List.min?_cons, foldl_min_elim]

theorem get_best_ys_is_running_min_witness :
    (1 : Nat) < ([3, 1, 2] : List ℚ).length ∧
      ((get_best_ys [3, 1, 2]).length = ([3, 1, 2] : List ℚ).length ∧
        (get_best_ys [3, 1, 2])[1]? = (([3, 1, 2] : List ℚ).take 2).min?) :=
  ⟨by decide, get_best_ys_is_running_min [3, 1, 2] 1 (by decide)⟩

theorem get_best_ys_aux_le (ys : List ℚ) (b : ℚ) :
    ∀ x ∈ get_best_ys_aux (some b) ys, x ≤ b := by
  induction ys generalizing b with
  | nil => simp [get_best_ys_aux]
  | cons y rest ih =>
    rw [get_best_ys_aux_some]
    intro x hx
    rcases List.mem_cons.mp hx with h | h
    · exact h ▸ min_le_left b y
    · exact le_trans (ih (min b y) x h) (min_le_left b y)

theorem get_best_ys_aux_sorted (ys : List ℚ) (b : ℚ) :
    (get_best_ys_aux (some b) ys).Pairwise (fun a c => c ≤ a) := by
  induction ys generalizing b with
  | nil => simp [get_best_ys_aux]
  | cons y rest ih =>
    rw [get_best_ys_aux_some]
    exact List.pairwise_cons.mpr ⟨get_best_ys_aux_le rest (min b y), ih (min b y)⟩

theorem get_best_ys_aux_fixed (l : List ℚ) (b : ℚ)
    (hle : ∀ x ∈ l, x ≤ b) (hs : l.Pairwise (fun a c => c ≤ a)) :
    get_best_ys_aux (some b) l = l := by
  induction l generalizing b with
  | nil => rfl
  | cons z rest ih =>
    rw [get_best_ys_aux_some]
    have hz : z ≤ b := hle z (List.mem_cons_self z rest)
    have hmin : min b z = z := min_eq_right hz
    rw [hmin]
    rcases List.pairwise_cons.mp hs with ⟨hhead, htail⟩
    rw [ih z hhead htail]

/-- **C7**: the running-best transform `get_best_ys` produces a
monotonically non-increasing sequence (the code's direction is minimize:
it tracks a running minimum starting from `np.inf`), and it is idempotent:
applying it to its own output returns that output unchanged. -/
theorem get_best_ys_monotone_idempotent (ys : List ℚ) :
    (get_best_ys ys).Pairwise (fun a c => c ≤ a) ∧
      get_best_ys (get_best_ys ys) = get_best_ys ys := by
  constructor
  · cases ys with
    | nil => simp [get_best_ys, get_best_ys_aux]
    | cons y rest =>
      show (y :: get_best_ys_aux (some y) rest).Pairwise _
      exact List.pairwise_cons.mpr ⟨get_best_ys_aux_le rest y, get_best_ys_aux_sorted rest y⟩
  · cases ys with
    | nil => rfl
    | cons y rest =>
      show get_best_ys (y :: get_best_ys_aux (some y) rest) = _
      show y :: get_best_ys_aux (some y) (get_best_ys_aux (some y) rest) = _
      rw [get_best_ys_aux_fixed _ y (get_best_ys_aux_le rest y) (get_best_ys_aux_sorted rest y)]
      rfl

/-! ## main.py: data model -/

/-- An optuna search-space descriptor as `Optimizer.get_candidate` branches
on it: `FloatDistribution(low, high)` or `CategoricalDistribution(choices)`. -/
inductive Distribution where
  | float (low high : ℚ)
  | categorical (choices : List ℚ)
deriving DecidableEq, Repr

/-- An observation batch: a numpy array of shape `(n, d)` as a list of rows. -/
abbrev Arr : Type := List (List ℚ)

/-- A frozen optuna trial as built by `optuna.trial.create_trial`: named
parameter values plus the recorded objective value. -/
structure FrozenTrial where
  params : List (String × ℚ)
  value : ℚ
deriving DecidableEq, Repr

/-- `optuna.trial.create_trial(params=params, distributions=distributions,
value=y[0])` in `Optimizer._set_samples`: `params` pairs each feature name
with the matching coordinate of `X` (the inner `zip(features, X)` loop);
`y[0]` fails when the row `y` is empty. -/
def create_trial (features : List String) (X y : List ℚ) : Option FrozenTrial :=
  match y with
  | [] => none
  | v :: _ => some ⟨List.zip features X, v⟩

/-- The samplers `Optimizer.__init__` can assign: `optuna.samplers.TPESampler()`
or `optuna.integration.BoTorchSampler(candidates_func=...)`, tagged with the
name of the external candidates function it was given. -/
inductive Sampler where
  | tpeSampler
  | botorchSampler (candidatesFunc : String)
deriving DecidableEq, Repr

/-- An optuna study: `optuna.create_study(direction=direction,
sampler=sampler)` plus the trials added to it so far. -/
structure Study where
  direction : String
  sampler : Sampler
  trials : List FrozenTrial
deriving DecidableEq, Repr

/-- `study.add_trial(trial)`: appends one frozen trial to the study. -/
def Study.add_trial (st : Study) (t : FrozenTrial) : Study :=
  { st with trials := st.trials ++ [t] }

/-- The `for X, y in zip(Xs, ys)` loop of `Optimizer._set_samples`. -/
def set_samples_loop (features : List String) (st : Study) :
    List (List ℚ × List ℚ) → Option Study
  | [] => some st
  | (X, y) :: rest =>
    match create_trial features X y with
    | none => none
    | some t => set_samples_loop features (st.add_trial t) rest

/-- `Optimizer._set_samples(Xs, ys, distributions)`: registers every
observation pair into the study, in the order of the parallel sequences,
with `features = list(distributions.keys())`. -/
def set_samples (st : Study) (Xs ys : Arr)
    (dists : List (String × Distribution)) : Option Study :=
  set_samples_loop (dists.map Prod.fst) st (List.zip Xs ys)

/-- Abstraction of `study.ask()` followed by `trial.suggest_float` /
`trial.suggest_categorical`: given the study state at ask time, a feature
name and its distribution, the value the external optuna machinery
suggests for that feature. -/
abbrev AskOracle : Type := Study → String → Distribution → ℚ

/-- The per-feature loop of `Optimizer.get_candidate`: one suggested value
per feature, in the key order of `distributions`. -/
def candidate_row (ask : AskOracle) (st : Study)
    (dists : List (String × Distribution)) : List ℚ :=
  dists.map (fun fd => ask st fd.1 fd.2)

/-- `Optimizer.get_candidate(Xs, ys, distributions)`: registers all current
observations via `_set_samples`, asks the study for one new trial, collects
one suggested value per feature in key order, and returns the row reshaped
to `1 × dim`. -/
def get_candidate (ask : AskOracle) (st : Study) (Xs ys : Arr)
    (dists : List (String × Distribution)) : Option (Study × Arr) :=
  match set_samples st Xs ys dists with
  | none => none
  | some st1 => some (st1, [candidate_row ask st1 dists])

/-- The recognized strategy identifiers: the string values of the
`SamplerName` enum, exactly the cases `Optimizer.__init__` branches on. -/
def recognizedSamplerNames : List String :=
  ["TPE", "EI GammaPrior", "EI DimScaledPrior", "EI Saas", "LogEI GammaPrior",
   "LogEI DimScaledPrior", "LCB", "thompson sampling", "experimental"]

/-- The optimizer object: `sampler = none` models the state in which
`__init__` fell through its branch chain without assigning `self.sampler`. -/
structure Optimizer where
  sampler : Option Sampler
deriving DecidableEq, Repr

/-- `Optimizer.__init__(sampler_name)`: the branch chain selecting a
sampler; `SamplerName` is a `str` enum, so matching is by string value.
The final `else: pass` assigns nothing and raises nothing. -/
def Optimizer.init (sampler_name : String) : Optimizer :=
  if sampler_name = "TPE" then ⟨some .tpeSampler⟩
  else if sampler_name = "LCB" then ⟨some (.botorchSampler "lcb")⟩
  else if sampler_name = "EI GammaPrior" then ⟨some (.botorchSampler "ei_gammma_prior")⟩
  else if sampler_name = "EI DimScaledPrior" then ⟨some (.botorchSampler "ei_dim_scaled_prior")⟩
  else if sampler_name = "EI Saas" then ⟨some (.botorchSampler "ei_saas")⟩
  else if sampler_name = "LogEI GammaPrior" then ⟨some (.botorchSampler "logei_gammma_prior")⟩
  else if sampler_name = "LogEI DimScaledPrior" then ⟨some (.botorchSampler "logei_dim_scaled_prior")⟩
  else if sampler_name = "thompson sampling" then ⟨some (.botorchSampler "thompson_sampling")⟩
  else if sampler_name = "experimental" then ⟨some (.botorchSampler "experimental")⟩
  else ⟨none⟩

/-- `Optimizer.create_study(direction)`: `optuna.create_study(direction=...,
sampler=self.sampler)`, starting with no trials; accessing a never-assigned
`self.sampler` attribute fails. -/
def Optimizer.create_study (opt : Optimizer) (direction : String) : Option Study :=
  match opt.sampler with
  | none => none
  | some s => some ⟨direction, s, []⟩

/-! ## main.py: driver -/

/-- Row-wise evaluation of the external test function: per §6 of the design,
`func.f` maps an `n × dim` batch to an `n × 1` batch, one output row per
input row; the underlying scalar objective is abstract. -/
def evalBatch (f : List ℚ → ℚ) (X : Arr) : Arr :=
  X.map (fun r => [f r])

/-- The observation pair `(Xs, ys)` carried by the `run_optimization` loop. -/
structure OptState where
  Xs : Arr
  ys : Arr
deriving DecidableEq, Repr

/-- One iteration of the `run_optimization` loop: create a fresh study, get
one candidate from the full current history, evaluate the test function on
it, and concatenate both arrays. -/
def run_step (opt : Optimizer) (ask : AskOracle) (f : List ℚ → ℚ)
    (direction : String) (dists : List (String × Distribution))
    (s : OptState) : Option OptState :=
  match opt.create_study direction with
  | none => none
  | some st0 =>
    match get_candidate ask st0 s.Xs s.ys dists with
    | none => none
    | some (_, new_X) => some ⟨s.Xs ++ new_X, s.ys ++ evalBatch f new_X⟩

/-- The `for _ in tqdm(range(iters))` loop of `run_optimization`. -/
def run_iters (opt : Optimizer) (ask : AskOracle) (f : List ℚ → ℚ)
    (direction : String) (dists : List (String × Distribution)) :
    Nat → OptState → Option OptState
  | 0, s => some s
  | n + 1, s =>
    match run_step opt ask f direction dists s with
    | none => none
    | some s1 => run_iters opt ask f direction dists n s1

/-- `run_optimization(func, direction, X_init, y_init, sampler_name, iters)`:
constructs the optimizer once, copies the initial batch into the loop state,
runs the loop and returns `ys`. -/
def run_optimization (sampler_name : String) (ask : AskOracle) (f : List ℚ → ℚ)
    (direction : String) (dists : List (String × Distribution))
    (X_init y_init : Arr) (iters : Nat) : Option Arr :=
  match run_iters (Optimizer.init sampler_name) ask f direction dists iters
      ⟨X_init, y_init⟩ with
  | none => none
  | some s => some s.ys

/-- `EXP_NUM = 3` in `main()`: the number of trials. -/
def EXP_NUM : Nat := 3

/-- `SERCH_NUM = 100` in `main()`: optimization iterations per trial. -/
def SERCH_NUM : Nat := 100

/-- `INIT_NUM = 10` in `main()`: the initial-batch size. -/
def INIT_NUM : Nat := 10

/-- The initial-batch loop of `main()`: one random draw evaluated, then the
remaining draws each evaluated and concatenated onto `X_init`/`y_init`. -/
def build_init (f : List ℚ → ℚ) (first : List ℚ) (rest : List (List ℚ)) :
    Arr × Arr :=
  rest.foldl (fun acc X => (acc.1 ++ [X], acc.2 ++ evalBatch f [X]))
    ([first], evalBatch f [first])

/-- The random-search loop of `main()`: starting from a copy of `y_init`,
each iteration evaluates the test function on one fresh random row and
concatenates the result. -/
def random_search (f : List ℚ → ℚ) (y_init : Arr) (rdraws : List (List ℚ)) : Arr :=
  rdraws.foldl (fun ys X => ys ++ evalBatch f [X]) y_init

/-- The `for method in use_methods` loop of `main()`: one `run_optimization`
per configured strategy, each from the same initial batch. -/
def run_methods (ask : String → AskOracle) (f : List ℚ → ℚ) (direction : String)
    (dists : List (String × Distribution)) (X_init y_init : Arr) (iters : Nat) :
    List String → Option (List Arr)
  | [] => some []
  | m :: rest =>
    match run_optimization m (ask m) f direction dists X_init y_init iters with
    | none => none
    | some ys =>
      match run_methods ask f direction dists X_init y_init iters rest with
      | none => none
      | some cols => some (ys :: cols)

/-- One trial body of `main()`: the columns of `serch_fs` in insertion
order — the random-search baseline first, then one column per strategy. -/
def run_trial (methods : List String) (ask : String → AskOracle)
    (f : List ℚ → ℚ) (direction : String) (dists : List (String × Distribution))
    (X_init y_init : Arr) (rdraws : List (List ℚ)) (iters : Nat) :
    Option (List Arr) :=
  match run_methods ask f direction dists X_init y_init iters methods with
  | none => none
  | some cols => some (random_search f y_init rdraws :: cols)

/-- `ys.squeeze()` on an `n × 1` array: the flat column as stored in the
result table. -/
def squeeze (a : Arr) : List ℚ :=
  a.map (fun r => r.headD 0)

/-- Membership of a value in a distribution: within `[low, high]` for a
continuous descriptor, one of the declared choices for a categorical one. -/
def InBounds : Distribution → ℚ → Prop
  | .float lo hi, v => lo ≤ v ∧ v ≤ hi
  | .categorical cs, v => v ∈ cs

/-- A well-formed search space: every continuous descriptor has
`low ≤ high` and every categorical descriptor has at least one choice. -/
def WellFormedDists (dists : List (String × Distribution)) : Prop :=
  ∀ fd ∈ dists, match fd.2 with
    | .float lo hi => lo ≤ hi
    | .categorical cs => cs ≠ []

/-- The optuna API contract for suggestions: `trial.suggest_float(f, lo, hi)`
returns a value in `[lo, hi]` and `trial.suggest_categorical(f, cs)` returns
one of `cs`, for any study state. -/
def ValidOracle (ask : AskOracle) : Prop :=
  ∀ st fe,
    (∀ lo hi : ℚ, lo ≤ hi →
      lo ≤ ask st fe (.float lo hi) ∧ ask st fe (.float lo hi) ≤ hi) ∧
    (∀ cs : List ℚ, cs ≠ [] → ask st fe (.categorical cs) ∈ cs)

/-! ## Claims about get_candidate and the strategy selection -/

theorem get_candidate_some (ask : AskOracle) (st : Study) (Xs ys : Arr)
    (dists : List (String × Distribution)) (st1 : Study) (res : Arr)
    (h : get_candidate ask st Xs ys dists = some (st1, res)) :
    set_samples st Xs ys dists = some st1 ∧ res = [candidate_row ask st1 dists] := by
  unfold get_candidate at h
  cases hset : set_samples st Xs ys dists with
  | none => rw [hset] at h; cases h
  | some st2 =>
    rw [hset] at h
    simp only [Option.some.injEq, Prod.mk.injEq] at h
    obtain ⟨h1, h2⟩ := h
    subst h1
    exact ⟨rfl, h2.symm⟩

theorem candidate_row_in_bounds (ask : AskOracle) (st : Study)
    (dists : List (String × Distribution))
    (hv : ValidOracle ask) (hwf : WellFormedDists dists) :
    List.Forall₂ (fun fd v => InBounds fd.2 v) dists (candidate_row ask st dists) := by
  induction dists with
  | nil => exact List.Forall₂.nil
  | cons fd rest ih =>
    have hwt : WellFormedDists rest := fun p hp => hwf p (List.mem_cons_of_mem fd hp)
    have hfd := hwf fd (List.mem_cons_self fd rest)
    simp only [candidate_row, List.map_cons]
    refine List.Forall₂.cons ?_ (ih hwt)
    obtain ⟨fe, d⟩ := fd
    cases d with
    | float lo hi =>
      have hle : lo ≤ hi := hfd
      exact (hv st fe).1 lo hi hle
    | categorical cs =>
      have hne : cs ≠ [] := hfd
      exact (hv st fe).2 cs hne

/-- **C3**: every candidate row returned by `Optimizer.get_candidate` has,
under the optuna suggestion contract (`suggest_float` returns a value in
`[low, high]`, `suggest_categorical` returns one of the choices), each
continuous entry within its feature's configured `[low, high]` and each
categorical entry among that feature's declared choices. -/
theorem get_candidate_in_bounds (ask : AskOracle) (st st1 : Study) (Xs ys : Arr)
    (dists : List (String × Distribution)) (res : Arr)
    (hok : get_candidate ask st Xs ys dists = some (st1, res))
    (hv : ValidOracle ask) (hwf : WellFormedDists dists) :
    ∃ row, res = [row] ∧ List.Forall₂ (fun fd v => InBounds fd.2 v) dists row := by
  obtain ⟨hset, hres⟩ := get_candidate_some ask st Xs ys dists st1 res hok
  exact ⟨candidate_row ask st1 dists, hres, candidate_row_in_bounds ask st1 dists hv hwf⟩

/-- A concrete suggestion oracle for witnesses: the lower bound for a
continuous feature, the first choice for a categorical one. -/
def ask0 : AskOracle := fun _ _ d =>
  match d with
  | .float lo _ => lo
  | .categorical cs => cs.headD 0

theorem ask0_valid : ValidOracle ask0 := by
  intro st fe
  constructor
  · intro lo hi h
    exact ⟨le_refl lo, h⟩
  · intro cs h
    cases cs with
    | nil => exact absurd rfl h
    | cons a l => exact List.mem_cons_self a l

/-- A concrete two-feature search space for witnesses. -/
def dists0 : List (String × Distribution) :=
  [("x", .float 0 1), ("c", .categorical [3, 4])]

theorem dists0_wf : WellFormedDists dists0 := by
  intro fd hfd
  rcases List.mem_cons.mp hfd with h | h
  · subst h; norm_num
  · rcases List.mem_cons.mp h with h' | h'
    · subst h'; simp
    · cases h'

/-- A concrete fresh study for witnesses. -/
def study0 : Study := ⟨"minimize", .tpeSampler, []⟩

theorem get_candidate_in_bounds_witness :
    get_candidate ask0 study0 [[7, 3]] [[2]] dists0 =
      some (⟨"minimize", .tpeSampler, [⟨[("x", 7), ("c", 3)], 2⟩]⟩, [[0, 3]]) ∧
      ∃ row, ([[0, 3]] : Arr) = [row] ∧
        List.Forall₂ (fun fd v => InBounds fd.2 v) dists0 row :=
  ⟨by decide,
    get_candidate_in_bounds ask0 study0
      ⟨"minimize", .tpeSampler, [⟨[("x", 7), ("c", 3)], 2⟩]⟩
      [[7, 3]] [[2]] dists0 [[0, 3]] (by decide) ask0_valid dists0_wf⟩

/-- **C4**: `Optimizer.get_candidate` assembles the per-feature suggested
values into a single numeric vector following the search-space mapping's
key order and returns it as an array of shape `1 × dim`, where `dim` is the
number of features in the mapping. -/
theorem get_candidate_shape (ask : AskOracle) (st st1 : Study) (Xs ys : Arr)
    (dists : List (String × Distribution)) (res : Arr)
    (hok : get_candidate ask st Xs ys dists = some (st1, res)) :
    res = [dists.map (fun fd => ask st1 fd.1 fd.2)] ∧
      res.length = 1 ∧ ∀ r ∈ res, r.length = dists.length := by
  obtain ⟨hset, hres⟩ := get_candidate_some ask st Xs ys dists st1 res hok
  subst hres
  refine ⟨rfl, rfl, ?_⟩
  intro r hr
  rcases List.mem_singleton.mp hr with h
  subst h
  simp [candidate_row]

theorem get_candidate_shape_witness :
    get_candidate ask0 study0 [[1, 3]] [[5]] dists0 =
      some (⟨"minimize", .tpeSampler, [⟨[("x", 1), ("c", 3)], 5⟩]⟩, [[0, 3]]) ∧
      (([[0, 3]] : Arr) =
          [dists0.map (fun fd =>
            ask0 ⟨"minimize", .tpeSampler, [⟨[("x", 1), ("c", 3)], 5⟩]⟩ fd.1 fd.2)] ∧
        ([[0, 3]] : Arr).length = 1 ∧ ∀ r ∈ ([[0, 3]] : Arr), r.length = dists0.length) :=
  ⟨by decide,
    get_candidate_shape ask0 study0
      ⟨"minimize", .tpeSampler, [⟨[("x", 1), ("c", 3)], 5⟩]⟩
      [[1, 3]] [[5]] dists0 [[0, 3]] (by decide)⟩

/-- **C8**: constructing an `Optimizer` with a strategy identifier matching
none of the recognized names is a silent no-op: construction returns the
object with no sampler assigned and raises nothing, and any later use of
the session (`create_study`, and hence the loop body that asks for a
candidate) fails instead. -/
theorem unrecognized_sampler_silent (name direction : String) (ask : AskOracle)
    (f : List ℚ → ℚ) (dists : List (String × Distribution)) (s : OptState)
    (h : name ∉ recognizedSamplerNames) :
    Optimizer.init name = ⟨none⟩ ∧
      (Optimizer.init name).create_study direction = none ∧
      run_step (Optimizer.init name) ask f direction dists s = none := by
  have h1 : Optimizer.init name = ⟨none⟩ := by
    simp only [recognizedSamplerNames, List.mem_cons, List.mem_singleton,
      not_or] at h
    obtain ⟨n1, n2, n3, n4, n5, n6, n7, n8, n9⟩ := h
    simp [Optimizer.init, n1, n2, n3, n4, n5, n6, n7, n8, n9]
  refine ⟨h1, ?_, ?_⟩
  · rw [h1]; rfl
  · rw [h1]; rfl

theorem unrecognized_sampler_silent_witness :
    ("EI" ∉ recognizedSamplerNames) ∧
      (Optimizer.init "EI" = ⟨none⟩ ∧
        (Optimizer.init "EI").create_study "minimize" = none ∧
        run_step (Optimizer.init "EI") ask0 (fun _ => 0) "minimize" dists0
          ⟨[], []⟩ = none) :=
  ⟨by decide,
    unrecognized_sampler_silent "EI" "minimize" ask0 (fun _ => 0) dists0
      ⟨[], []⟩ (by decide)⟩

/-! ## Claims about the replay loop -/

/-- The frozen trial `_set_samples` builds for one observation pair
(assuming a non-empty output row, where `headD 0` is `y[0]`). -/
def trial_of (features : List String) (p : List ℚ × List ℚ) : FrozenTrial :=
  ⟨List.zip features p.1, p.2.headD 0⟩

theorem set_samples_loop_eq (features : List String) (st : Study)
    (pairs : List (List ℚ × List ℚ)) (h : ∀ p ∈ pairs, p.2 ≠ []) :
    set_samples_loop features st pairs =
      some { st with trials := st.trials ++ pairs.map (trial_of features) } := by
  induction pairs generalizing st with
  | nil => simp [set_samples_loop]
  | cons p rest ih =>
    obtain ⟨X, y⟩ := p
    cases y with
    | nil => exact absurd rfl (h (X, []) (List.mem_cons_self _ _))
    | cons v ytl =>
      show set_samples_loop features (st.add_trial ⟨List.zip features X, v⟩) rest = _
      rw [ih (st.add_trial ⟨List.zip features X, v⟩)
        (fun p hp => h p (List.mem_cons_of_mem _ hp))]
      simp [Study.add_trial, trial_of]

theorem set_samples_eq (st : Study) (Xs ys : Arr)
    (dists : List (String × Distribution))
    (h : ∀ p ∈ List.zip Xs ys, p.2 ≠ []) :
    set_samples st Xs ys dists =
      some { st with trials :=
        st.trials ++ (List.zip Xs ys).map (trial_of (dists.map Prod.fst)) } :=
  set_samples_loop_eq (dists.map Prod.fst) st (List.zip Xs ys) h

/-- **C1**: each iteration of the `run_optimization` loop constructs a fresh
study (no trials carried over from earlier iterations), registers every
observation pair currently in `Xs`/`ys` into it in chronological order (the
order of the parallel sequences), and requests exactly one new candidate
from it: the iteration extends the history by exactly that one row. -/
theorem run_step_fresh_replay_one_candidate (opt : Optimizer) (smp : Sampler)
    (ask : AskOracle) (f : List ℚ → ℚ) (direction : String)
    (dists : List (String × Distribution)) (s : OptState)
    (hs : opt.sampler = some smp) (hy : ∀ r ∈ s.ys, r ≠ []) :
    ∃ st1,
      set_samples ⟨direction, smp, []⟩ s.Xs s.ys dists = some st1 ∧
      st1.trials = (List.zip s.Xs s.ys).map (trial_of (dists.map Prod.fst)) ∧
      run_step opt ask f direction dists s =
        some ⟨s.Xs ++ [candidate_row ask st1 dists],
              s.ys ++ [[f (candidate_row ask st1 dists)]]⟩ := by
  have hzip : ∀ p ∈ List.zip s.Xs s.ys, p.2 ≠ [] := by
    intro p hp
    exact hy p.2 (List.of_mem_zip hp).2
  have hset := set_samples_eq ⟨direction, smp, []⟩ s.Xs s.ys dists hzip
  refine ⟨_, hset, by simp, ?_⟩
  have hcs : opt.create_study direction = some ⟨direction, smp, []⟩ := by
    unfold Optimizer.create_study
    rw [hs]
  unfold run_step get_candidate
  simp only [hcs, hset, evalBatch, List.map_cons, List.map_nil]

theorem run_step_fresh_replay_one_candidate_witness :
    (Optimizer.init "TPE").sampler = some .tpeSampler ∧
      (∀ r ∈ ([[2]] : Arr), r ≠ []) ∧
      ∃ st1,
        set_samples ⟨"minimize", .tpeSampler, []⟩ [[1, 4]] [[2]] dists0 = some st1 ∧
        st1.trials = (List.zip ([[1, 4]] : Arr) [[2]]).map (trial_of (dists0.map Prod.fst)) ∧
        run_step (Optimizer.init "TPE") ask0 (fun _ => 0) "minimize" dists0 ⟨[[1, 4]], [[2]]⟩ =
          some ⟨[[1, 4]] ++ [candidate_row ask0 st1 dists0],
                [[2]] ++ [[(fun _ => (0 : ℚ)) (candidate_row ask0 st1 dists0)]]⟩ :=
  ⟨by decide, by decide,
    run_step_fresh_replay_one_candidate (Optimizer.init "TPE") .tpeSampler
      ask0 (fun _ => 0) "minimize" dists0 ⟨[[1, 4]], [[2]]⟩ (by decide) (by decide)⟩

theorem run_step_shape (opt : Optimizer) (ask : AskOracle) (f : List ℚ → ℚ)
    (direction : String) (dists : List (String × Distribution)) (s s1 : OptState)
    (h : run_step opt ask f direction dists s = some s1) :
    ∃ x, s1.Xs = s.Xs ++ [x] ∧ s1.ys = s.ys ++ [[f x]] := by
  unfold run_step at h
  cases hcs : opt.create_study direction with
  | none => simp [hcs] at h
  | some st0 =>
    simp only [hcs] at h
    cases hgc : get_candidate ask st0 s.Xs s.ys dists with
    | none => simp [hgc] at h
    | some pr =>
      obtain ⟨stx, newX⟩ := pr
      simp only [hgc] at h
      obtain ⟨hset, hres⟩ := get_candidate_some ask st0 s.Xs s.ys dists stx newX hgc
      subst hres
      cases h
      exact ⟨candidate_row ask stx dists, rfl, by simp [evalBatch]⟩

theorem run_iters_growth (opt : Optimizer) (ask : AskOracle) (f : List ℚ → ℚ)
    (direction : String) (dists : List (String × Distribution)) (n : Nat)
    (s s1 : OptState) (h : run_iters opt ask f direction dists n s = some s1) :
    s1.Xs.length = s.Xs.length + n ∧ s1.ys.length = s.ys.length + n ∧
      s.Xs <+: s1.Xs ∧ s.ys <+: s1.ys := by
  induction n generalizing s with
  | zero =>
    cases h
    exact ⟨rfl, rfl, List.prefix_refl _, List.prefix_refl _⟩
  | succ n ih =>
    unfold run_iters at h
    cases hst : run_step opt ask f direction dists s with
    | none => rw [hst] at h; cases h
    | some s2 =>
      rw [hst] at h
      obtain ⟨x, hx, hy⟩ := run_step_shape opt ask f direction dists s s2 hst
      obtain ⟨h1, h2, h3, h4⟩ := ih s2 h
      refine ⟨?_, ?_, ?_, ?_⟩
      · rw [h1, hx]; simp; omega
      · rw [h2, hy]; simp; omega
      · exact List.IsPrefix.trans ⟨[x], hx.symm⟩ h3
      · exact List.IsPrefix.trans ⟨[[f x]], hy.symm⟩ h4

/-- **C5**: within one trial, `len(Xs) == len(ys)` holds after the initial
batch and after any number of optimization iterations; the observation set
is only ever grown by concatenation (the previous history is a prefix of
the new one; nothing is removed), and it grows by exactly one element per
iteration. -/
theorem observation_store_invariant (opt : Optimizer) (ask : AskOracle)
    (f : List ℚ → ℚ) (direction : String) (dists : List (String × Distribution))
    (n : Nat) (s s1 : OptState) (hlen : s.Xs.length = s.ys.length)
    (h : run_iters opt ask f direction dists n s = some s1) :
    s1.Xs.length = s1.ys.length ∧
      s1.Xs.length = s.Xs.length + n ∧ s1.ys.length = s.ys.length + n ∧
      s.Xs <+: s1.Xs ∧ s.ys <+: s1.ys := by
  obtain ⟨h1, h2, h3, h4⟩ := run_iters_growth opt ask f direction dists n s s1 h
  exact ⟨by rw [h1, h2, hlen], h1, h2, h3, h4⟩

theorem observation_store_invariant_witness :
    (([[1, 4]] : Arr).length = ([[2]] : Arr).length) ∧
      ∃ s1, run_iters (Optimizer.init "TPE") ask0 (fun _ => 0) "minimize" dists0 2
          ⟨[[1, 4]], [[2]]⟩ = some s1 ∧
        (s1.Xs.length = s1.ys.length ∧
          s1.Xs.length = ([[1, 4]] : Arr).length + 2 ∧
          s1.ys.length = ([[2]] : Arr).length + 2 ∧
          ([[1, 4]] : Arr) <+: s1.Xs ∧ ([[2]] : Arr) <+: s1.ys) := by
  have h : run_iters (Optimizer.init "TPE") ask0 (fun _ => 0) "minimize" dists0 2
      ⟨[[1, 4]], [[2]]⟩ =
        some ⟨[[1, 4], [0, 3], [0, 3]], [[2], [0], [0]]⟩ := by decide
  exact ⟨by decide, _, h,
    observation_store_invariant (Optimizer.init "TPE") ask0 (fun _ => 0) "minimize"
      dists0 2 ⟨[[1, 4]], [[2]]⟩ _ (by decide) h⟩

/-! ## Claims about the result-table columns -/

theorem run_optimization_some (name : String) (ask : AskOracle) (f : List ℚ → ℚ)
    (direction : String) (dists : List (String × Distribution))
    (X_init y_init : Arr) (iters : Nat) (ys' : Arr)
    (h : run_optimization name ask f direction dists X_init y_init iters = some ys') :
    ∃ s1, run_iters (Optimizer.init name) ask f direction dists iters
        ⟨X_init, y_init⟩ = some s1 ∧ ys' = s1.ys := by
  unfold run_optimization at h
  cases hri : run_iters (Optimizer.init name) ask f direction dists iters
      ⟨X_init, y_init⟩ with
  | none => simp [hri] at h
  | some s1 =>
    simp only [hri] at h
    cases h
    exact ⟨s1, rfl, rfl⟩

theorem random_search_spec (f : List ℚ → ℚ) (rdraws : List (List ℚ)) (y_init : Arr) :
    random_search f y_init rdraws = y_init ++ evalBatch f rdraws := by
  induction rdraws generalizing y_init with
  | nil => simp [random_search, evalBatch]
  | cons X rs ih =>
    show random_search f (y_init ++ evalBatch f [X]) rs = _
    rw [ih]
    simp [evalBatch]

theorem forall₂_mem_right {α β : Type} {R : α → β → Prop} {l1 : List α}
    {l2 : List β} (h : List.Forall₂ R l1 l2) : ∀ b ∈ l2, ∃ a ∈ l1, R a b := by
  induction h with
  | nil => intro b hb; cases hb
  | cons hR hrest ih =>
    intro b hb
    rcases List.mem_cons.mp hb with h' | h'
    · exact ⟨_, List.mem_cons_self _ _, h' ▸ hR⟩
    · obtain ⟨a, ha, hr⟩ := ih b h'
      exact ⟨a, List.mem_cons_of_mem _ ha, hr⟩

theorem run_methods_spec (ask : String → AskOracle) (f : List ℚ → ℚ)
    (direction : String) (dists : List (String × Distribution))
    (X_init y_init : Arr) (iters : Nat) :
    ∀ (methods : List String) (cols : List Arr),
      run_methods ask f direction dists X_init y_init iters methods = some cols →
      List.Forall₂ (fun m col =>
        run_optimization m (ask m) f direction dists X_init y_init iters = some col)
        methods cols := by
  intro methods
  induction methods with
  | nil =>
    intro cols h
    cases h
    exact List.Forall₂.nil
  | cons m rest ih =>
    intro cols h
    unfold run_methods at h
    cases hro : run_optimization m (ask m) f direction dists X_init y_init iters with
    | none => simp [hro] at h
    | some ys =>
      simp only [hro] at h
      cases hrm : run_methods ask f direction dists X_init y_init iters rest with
      | none => simp [hrm] at h
      | some cols' =>
        simp only [hrm] at h
        cases h
        exact List.Forall₂.cons hro (ih cols' hrm)

theorem run_trial_some (methods : List String) (ask : String → AskOracle)
    (f : List ℚ → ℚ) (direction : String) (dists : List (String × Distribution))
    (X_init y_init : Arr) (rdraws : List (List ℚ)) (iters : Nat) (cols : List Arr)
    (h : run_trial methods ask f direction dists X_init y_init rdraws iters = some cols) :
    ∃ mcols, run_methods ask f direction dists X_init y_init iters methods = some mcols ∧
      cols = random_search f y_init rdraws :: mcols := by
  unfold run_trial at h
  cases hrm : run_methods ask f direction dists X_init y_init iters methods with
  | none => simp [hrm] at h
  | some mcols =>
    simp only [hrm] at h
    cases h
    exact ⟨mcols, rfl, rfl⟩

/-- **C2**: for every completed trial, every column of the result table —
each configured strategy column and the random-search column — has length
`INIT_NUM + SERCH_NUM` (`10 + 100 = 110` rows in the configuration). -/
theorem result_columns_length (methods : List String) (ask : String → AskOracle)
    (f : List ℚ → ℚ) (direction : String) (dists : List (String × Distribution))
    (X_init y_init : Arr) (rdraws : List (List ℚ)) (cols : List Arr)
    (hy : y_init.length = INIT_NUM) (hr : rdraws.length = SERCH_NUM)
    (h : run_trial methods ask f direction dists X_init y_init rdraws SERCH_NUM = some cols) :
    ∀ c ∈ cols, (squeeze c).length = INIT_NUM + SERCH_NUM := by
  obtain ⟨mcols, hrm, hcols⟩ :=
    run_trial_some methods ask f direction dists X_init y_init rdraws SERCH_NUM cols h
  subst hcols
  have hsq : ∀ a : Arr, (squeeze a).length = a.length := fun a => List.length_map a _
  intro c hc
  rcases List.mem_cons.mp hc with h' | h'
  · subst h'
    rw [hsq, random_search_spec]
    simp [evalBatch, hy, hr]
  · obtain ⟨m, _, hro⟩ := forall₂_mem_right
      (run_methods_spec ask f direction dists X_init y_init SERCH_NUM methods mcols hrm) c h'
    obtain ⟨s1, hri, hys⟩ :=
      run_optimization_some m (ask m) f direction dists X_init y_init SERCH_NUM c hro
    obtain ⟨_, h2, _, _⟩ := run_iters_growth (Optimizer.init m) (ask m) f direction dists
      SERCH_NUM ⟨X_init, y_init⟩ s1 hri
    rw [hsq, hys, h2]
    simp only [hy]

/-- Concrete trial columns for the C2 witness. -/
def trialCols2 : List Arr :=
  (run_trial ["TPE"] (fun _ => ask0) (fun _ => 0) "minimize" dists0
    (List.replicate 10 [0, 3]) (List.replicate 10 [0]) (List.replicate 100 [0, 4])
    SERCH_NUM).getD []

set_option maxRecDepth 40000 in
theorem result_columns_length_witness :
    (List.replicate 10 ([0] : List ℚ)).length = INIT_NUM ∧
      (List.replicate 100 ([0, 4] : List ℚ)).length = SERCH_NUM ∧
      run_trial ["TPE"] (fun _ => ask0) (fun _ => 0) "minimize" dists0
        (List.replicate 10 [0, 3]) (List.replicate 10 [0]) (List.replicate 100 [0, 4])
        SERCH_NUM = some trialCols2 ∧
      ∀ c ∈ trialCols2, (squeeze c).length = INIT_NUM + SERCH_NUM := by
  have h : run_trial ["TPE"] (fun _ => ask0) (fun _ => 0) "minimize" dists0
      (List.replicate 10 [0, 3]) (List.replicate 10 [0]) (List.replicate 100 [0, 4])
      SERCH_NUM = some trialCols2 := by decide
  exact ⟨by decide, by decide, h,
    result_columns_length ["TPE"] (fun _ => ask0) (fun _ => 0) "minimize" dists0
      (List.replicate 10 [0, 3]) (List.replicate 10 [0]) (List.replicate 100 [0, 4])
      trialCols2 (by decide) (by decide) h⟩

theorem build_init_loop (f : List ℚ → ℚ) (rest : List (List ℚ)) (A B : Arr) :
    rest.foldl (fun acc X => (acc.1 ++ [X], acc.2 ++ evalBatch f [X])) (A, B) =
      (A ++ rest, B ++ evalBatch f rest) := by
  induction rest generalizing A B with
  | nil => simp [evalBatch]
  | cons X rs ih =>
    rw [List.foldl_cons, ih]
    simp [evalBatch]

theorem build_init_spec (f : List ℚ → ℚ) (first : List ℚ) (rest : List (List ℚ)) :
    build_init f first rest = (first :: rest, evalBatch f (first :: rest)) := by
  unfold build_init
  rw [build_init_loop]
  simp [evalBatch]

theorem prefix_take (y : Arr) (c : Arr) (h : y <+: c) : c.take y.length = y := by
  obtain ⟨t, ht⟩ := h
  rw [← ht, List.take_left]

/-- **C10**: in every trial's result table, the first `INIT_NUM` entries of
every column — the random-search column and each strategy column — are
identical: they are exactly the objective values of the shared initial
batch, in the order the initial points were drawn. -/
theorem initial_batch_shared_rows (methods : List String) (ask : String → AskOracle)
    (f : List ℚ → ℚ) (direction : String) (dists : List (String × Distribution))
    (first : List ℚ) (rest rdraws : List (List ℚ)) (X_init y_init : Arr)
    (cols : List Arr) (iters : Nat)
    (hinit : build_init f first rest = (X_init, y_init))
    (hlen : y_init.length = INIT_NUM)
    (h : run_trial methods ask f direction dists X_init y_init rdraws iters = some cols) :
    ∀ c ∈ cols, c.take INIT_NUM = evalBatch f (first :: rest) := by
  have hspec := build_init_spec f first rest
  rw [hinit, Prod.mk.injEq] at hspec
  obtain ⟨_, hY⟩ := hspec
  rw [← hY]
  obtain ⟨mcols, hrm, hcols⟩ :=
    run_trial_some methods ask f direction dists X_init y_init rdraws iters cols h
  subst hcols
  intro c hc
  rcases List.mem_cons.mp hc with h' | h'
  · subst h'
    rw [random_search_spec, ← hlen, List.take_left]
  · obtain ⟨m, _, hro⟩ := forall₂_mem_right
      (run_methods_spec ask f direction dists X_init y_init iters methods mcols hrm) c h'
    obtain ⟨s1, hri, hys⟩ :=
      run_optimization_some m (ask m) f direction dists X_init y_init iters c hro
    obtain ⟨_, _, _, hpre⟩ := run_iters_growth (Optimizer.init m) (ask m) f direction dists
      iters ⟨X_init, y_init⟩ s1 hri
    rw [hys, ← hlen]
    exact prefix_take y_init s1.ys hpre

/-- Concrete trial columns for the C10 witness. -/
def trialCols10 : List Arr :=
  (run_trial ["TPE"] (fun _ => ask0) (fun _ => 0) "minimize" dists0
    (([5, 3] : List ℚ) :: List.replicate 9 [5, 3]) (List.replicate 10 [0])
    [[1, 4]] 2).getD []

theorem initial_batch_shared_rows_witness :
    build_init (fun _ => (0 : ℚ)) [5, 3] (List.replicate 9 [5, 3]) =
      (([5, 3] : List ℚ) :: List.replicate 9 [5, 3], List.replicate 10 [0]) ∧
      (List.replicate 10 ([0] : List ℚ)).length = INIT_NUM ∧
      run_trial ["TPE"] (fun _ => ask0) (fun _ => 0) "minimize" dists0
        (([5, 3] : List ℚ) :: List.replicate 9 [5, 3]) (List.replicate 10 [0])
        [[1, 4]] 2 = some trialCols10 ∧
      ∀ c ∈ trialCols10,
        c.take INIT_NUM = evalBatch (fun _ => 0) (([5, 3] : List ℚ) :: List.replicate 9 [5, 3]) := by
  have h : run_trial ["TPE"] (fun _ => ask0) (fun _ => 0) "minimize" dists0
      (([5, 3] : List ℚ) :: List.replicate 9 [5, 3]) (List.replicate 10 [0])
      [[1, 4]] 2 = some trialCols10 := by decide
  exact ⟨by decide, by decide, h,
    initial_batch_shared_rows ["TPE"] (fun _ => ask0) (fun _ => 0) "minimize" dists0
      [5, 3] (List.replicate 9 [5, 3]) [[1, 4]]
      (([5, 3] : List ℚ) :: List.replicate 9 [5, 3]) (List.replicate 10 [0])
      trialCols10 2 (by decide) (by decide) h⟩

/-! ## Store model: numpy arrays as heap cells

`run_optimization` receives `X_init`/`y_init` by reference and the random
baseline in `main()` holds its own array. Every numpy operation the code
performs on these (`copy`, `np.concatenate`) allocates a fresh array, so the
mutation claim is settled against an explicit store: cells hold arrays,
references are cell indices, and the driver is re-expressed over the store.
-/

/-- A store of numpy arrays. -/
abbrev Store : Type := List Arr

/-- A reference to an array cell. -/
abbrev Ref : Type := Nat

/-- Read an array cell. -/
def readRef (st : Store) (r : Ref) : Arr := st.getD r []

/-- Allocate a fresh cell at the end of the store. -/
def alloc (st : Store) (a : Arr) : Store × Ref := (st ++ [a], st.length)

/-- `arr.copy()`: a fresh cell holding the same value. -/
def copyRef (st : Store) (r : Ref) : Store × Ref := alloc st (readRef st r)

/-- `np.concatenate([arr, new])`: a fresh cell holding the concatenation;
the input cells are untouched. -/
def concatRef (st : Store) (r : Ref) (a : Arr) : Store × Ref :=
  alloc st (readRef st r ++ a)

/-- The `run_optimization` loop body over the store. -/
def run_step_heap (opt : Optimizer) (ask : AskOracle) (f : List ℚ → ℚ)
    (direction : String) (dists : List (String × Distribution))
    (st : Store) (xr yr : Ref) : Option (Store × Ref × Ref) :=
  match opt.create_study direction with
  | none => none
  | some st0 =>
    match get_candidate ask st0 (readRef st xr) (readRef st yr) dists with
    | none => none
    | some (_, new_X) =>
      let p1 := concatRef st xr new_X
      let p2 := concatRef p1.1 yr (evalBatch f new_X)
      some (p2.1, p1.2, p2.2)

/-- The iterated `run_optimization` loop over the store. -/
def run_iters_heap (opt : Optimizer) (ask : AskOracle) (f : List ℚ → ℚ)
    (direction : String) (dists : List (String × Distribution)) :
    Nat → Store → Ref → Ref → Option (Store × Ref × Ref)
  | 0, st, xr, yr => some (st, xr, yr)
  | n + 1, st, xr, yr =>
    match run_step_heap opt ask f direction dists st xr yr with
    | none => none
    | some (st1, xr1, yr1) => run_iters_heap opt ask f direction dists n st1 xr1 yr1

/-- `run_optimization` over the store: `Xs = X_init.copy()`,
`ys = y_init.copy()`, then the loop; returns the reference to `ys`. -/
def run_optimization_heap (name : String) (ask : AskOracle) (f : List ℚ → ℚ)
    (direction : String) (dists : List (String × Distribution))
    (st : Store) (xr yr : Ref) (iters : Nat) : Option (Store × Ref) :=
  let p1 := copyRef st xr
  let p2 := copyRef p1.1 yr
  match run_iters_heap (Optimizer.init name) ask f direction dists iters
      p2.1 p1.2 p2.2 with
  | none => none
  | some (st1, _, yr1) => some (st1, yr1)

/-- The random-search loop of `main()` over the store:
`ys_random = y_init.copy()`, then one concatenation per draw. -/
def random_search_heap (f : List ℚ → ℚ) (st : Store) (yr : Ref)
    (rdraws : List (List ℚ)) : Store × Ref :=
  rdraws.foldl (fun p X => concatRef p.1 p.2 (evalBatch f [X])) (copyRef st yr)

/-- The per-method loop of `main()` over the store. -/
def run_methods_heap (ask : String → AskOracle) (f : List ℚ → ℚ)
    (direction : String) (dists : List (String × Distribution))
    (xr yr : Ref) (iters : Nat) : List String → Store → Option (Store × List Ref)
  | [], st => some (st, [])
  | m :: rest, st =>
    match run_optimization_heap m (ask m) f direction dists st xr yr iters with
    | none => none
    | some (st1, r) =>
      match run_methods_heap ask f direction dists xr yr iters rest st1 with
      | none => none
      | some (st2, rs) => some (st2, r :: rs)

/-- One trial body of `main()` over the store: random search first, then the
configured strategies; returns the references to all columns in order. -/
def run_trial_heap (methods : List String) (ask : String → AskOracle)
    (f : List ℚ → ℚ) (direction : String) (dists : List (String × Distribution))
    (st : Store) (xr yr : Ref) (rdraws : List (List ℚ)) (iters : Nat) :
    Option (Store × List Ref) :=
  let pr := random_search_heap f st yr rdraws
  match run_methods_heap ask f direction dists xr yr iters methods pr.1 with
  | none => none
  | some (st2, rs) => some (st2, pr.2 :: rs)

theorem readRef_append (st ext : Store) (r : Ref) (h : r < st.length) :
    readRef (st ++ ext) r = readRef st r := by
  unfold readRef
  exact List.getD_append st ext [] r h

theorem readRef_alloc_self (st : Store) (a : Arr) :
    readRef (st ++ [a]) st.length = a := by
  unfold readRef
  rw [List.getD_append_right st [a] [] st.length (le_refl _)]
  simp

theorem run_step_heap_inv (opt : Optimizer) (ask : AskOracle) (f : List ℚ → ℚ)
    (direction : String) (dists : List (String × Distribution))
    (st : Store) (xr yr : Ref) (st' : Store) (xr' yr' : Ref)
    (_hx : xr < st.length) (hy : yr < st.length)
    (h : run_step_heap opt ask f direction dists st xr yr = some (st', xr', yr')) :
    ∃ s1, run_step opt ask f direction dists ⟨readRef st xr, readRef st yr⟩ = some s1 ∧
      (∃ ext, st' = st ++ ext) ∧ xr' < st'.length ∧ yr' < st'.length ∧
      readRef st' xr' = s1.Xs ∧ readRef st' yr' = s1.ys := by
  unfold run_step_heap at h
  cases hcs : opt.create_study direction with
  | none => simp [hcs] at h
  | some st0 =>
    simp only [hcs] at h
    cases hgc : get_candidate ask st0 (readRef st xr) (readRef st yr) dists with
    | none => simp [hgc] at h
    | some pr =>
      obtain ⟨stx, newX⟩ := pr
      simp only [hgc, concatRef, alloc] at h
      rw [readRef_append st [readRef st xr ++ newX] yr hy] at h
      simp only [Option.some.injEq, Prod.mk.injEq] at h
      obtain ⟨h1, h2, h3⟩ := h
      subst h1
      subst h2
      subst h3
      have hps : run_step opt ask f direction dists ⟨readRef st xr, readRef st yr⟩ =
          some ⟨readRef st xr ++ newX, readRef st yr ++ evalBatch f newX⟩ := by
        unfold run_step
        simp only [hcs, hgc]
      refine ⟨⟨readRef st xr ++ newX, readRef st yr ++ evalBatch f newX⟩, hps,
        ⟨[readRef st xr ++ newX, readRef st yr ++ evalBatch f newX], by simp⟩,
        ?_, ?_, ?_, ?_⟩
      · simp
      · simp
      · rw [readRef_append (st ++ [readRef st xr ++ newX])
            [readRef st yr ++ evalBatch f newX] st.length (by simp),
          readRef_alloc_self]
      · exact readRef_alloc_self _ _

theorem run_iters_heap_inv (opt : Optimizer) (ask : AskOracle) (f : List ℚ → ℚ)
    (direction : String) (dists : List (String × Distribution)) (n : Nat) :
    ∀ (st : Store) (xr yr : Ref) (st' : Store) (xr' yr' : Ref),
      xr < st.length → yr < st.length →
      run_iters_heap opt ask f direction dists n st xr yr = some (st', xr', yr') →
      ∃ s1, run_iters opt ask f direction dists n ⟨readRef st xr, readRef st yr⟩ = some s1 ∧
        (∃ ext, st' = st ++ ext) ∧ xr' < st'.length ∧ yr' < st'.length ∧
        readRef st' xr' = s1.Xs ∧ readRef st' yr' = s1.ys := by
  induction n with
  | zero =>
    intro st xr yr st' xr' yr' hx hy h
    cases h
    exact ⟨⟨readRef st xr, readRef st yr⟩, rfl, ⟨[], by simp⟩, hx, hy, rfl, rfl⟩
  | succ n ih =>
    intro st xr yr st' xr' yr' hx hy h
    unfold run_iters_heap at h
    cases hst : run_step_heap opt ask f direction dists st xr yr with
    | none => simp [hst] at h
    | some tr =>
      obtain ⟨st1, xr1, yr1⟩ := tr
      simp only [hst] at h
      obtain ⟨⟨xs1, ys1⟩, hps, ⟨ext1, hext1⟩, hx1, hy1, hrx, hry⟩ :=
        run_step_heap_inv opt ask f direction dists st xr yr st1 xr1 yr1 hx hy hst
      subst hrx
      subst hry
      obtain ⟨s2, hri, ⟨ext2, hext2⟩, hx2, hy2, hrx2, hry2⟩ :=
        ih st1 xr1 yr1 st' xr' yr' hx1 hy1 h
      have hpure : run_iters opt ask f direction dists (n + 1)
          ⟨readRef st xr, readRef st yr⟩ = some s2 := by
        unfold run_iters
        simp only [hps]
        exact hri
      exact ⟨s2, hpure, ⟨ext1 ++ ext2, by rw [hext2, hext1, List.append_assoc]⟩,
        hx2, hy2, hrx2, hry2⟩

theorem run_optimization_heap_inv (name : String) (ask : AskOracle) (f : List ℚ → ℚ)
    (direction : String) (dists : List (String × Distribution))
    (st : Store) (xr yr : Ref) (iters : Nat) (st' : Store) (r : Ref)
    (_hx : xr < st.length) (hy : yr < st.length)
    (h : run_optimization_heap name ask f direction dists st xr yr iters = some (st', r)) :
    ∃ ys', run_optimization name ask f direction dists
        (readRef st xr) (readRef st yr) iters = some ys' ∧
      (∃ ext, st' = st ++ ext) ∧ r < st'.length ∧ readRef st' r = ys' := by
  unfold run_optimization_heap at h
  simp only [copyRef, alloc] at h
  rw [readRef_append st [readRef st xr] yr hy] at h
  cases hri : run_iters_heap (Optimizer.init name) ask f direction dists iters
      (st ++ [readRef st xr] ++ [readRef st yr]) st.length
      (st ++ [readRef st xr]).length with
  | none =>
    rw [hri] at h
    exact Option.noConfusion h
  | some tr =>
    obtain ⟨st1, xr1, yr1⟩ := tr
    rw [hri] at h
    cases h
    have hxB : st.length < (st ++ [readRef st xr] ++ [readRef st yr]).length := by simp
    have hyB : (st ++ [readRef st xr]).length <
        (st ++ [readRef st xr] ++ [readRef st yr]).length := by simp
    obtain ⟨s1, hpure, ⟨ext, hext⟩, _, hy1, hrx, hry⟩ :=
      run_iters_heap_inv (Optimizer.init name) ask f direction dists iters
        (st ++ [readRef st xr] ++ [readRef st yr]) st.length
        (st ++ [readRef st xr]).length st' xr1 r hxB hyB hri
    have hrB1 : readRef (st ++ [readRef st xr] ++ [readRef st yr]) st.length =
        readRef st xr := by
      rw [readRef_append (st ++ [readRef st xr]) [readRef st yr] st.length (by simp),
        readRef_alloc_self]
    have hrB2 : readRef (st ++ [readRef st xr] ++ [readRef st yr])
        (st ++ [readRef st xr]).length = readRef st yr := readRef_alloc_self _ _
    rw [hrB1, hrB2] at hpure
    refine ⟨s1.ys, ?_, ⟨[readRef st xr] ++ [readRef st yr] ++ ext, ?_⟩, hy1, hry⟩
    · unfold run_optimization
      simp only [hpure]
    · rw [hext]
      simp [List.append_assoc]

theorem random_loop_spec (f : List ℚ → ℚ) (rdraws : List (List ℚ)) :
    ∀ (st : Store) (r : Ref), r < st.length →
      ∃ st1 r1 ext,
        rdraws.foldl (fun p X => concatRef p.1 p.2 (evalBatch f [X])) (st, r) = (st1, r1) ∧
        st1 = st ++ ext ∧ r1 < st1.length ∧
        readRef st1 r1 = random_search f (readRef st r) rdraws := by
  induction rdraws with
  | nil =>
    intro st r hr
    exact ⟨st, r, [], rfl, by simp, hr, rfl⟩
  | cons X rs ih =>
    intro st r hr
    rw [List.foldl_cons]
    have hstep : concatRef st r (evalBatch f [X]) =
        (st ++ [readRef st r ++ evalBatch f [X]], st.length) := rfl
    rw [hstep]
    obtain ⟨st1, r1, ext, hfold, hext, hlt, hread⟩ :=
      ih (st ++ [readRef st r ++ evalBatch f [X]]) st.length (by simp)
    refine ⟨st1, r1, [readRef st r ++ evalBatch f [X]] ++ ext, hfold,
      by rw [hext, List.append_assoc], hlt, ?_⟩
    rw [hread, readRef_alloc_self]
    rfl

theorem random_search_heap_spec (f : List ℚ → ℚ) (st : Store) (yr : Ref)
    (rdraws : List (List ℚ)) (_hy : yr < st.length) :
    ∃ st1 r1 ext,
      random_search_heap f st yr rdraws = (st1, r1) ∧
      st1 = st ++ ext ∧ r1 < st1.length ∧
      readRef st1 r1 = random_search f (readRef st yr) rdraws := by
  unfold random_search_heap
  have hcopy : copyRef st yr = (st ++ [readRef st yr], st.length) := rfl
  rw [hcopy]
  obtain ⟨st1, r1, ext, hfold, hext, hlt, hread⟩ :=
    random_loop_spec f rdraws (st ++ [readRef st yr]) st.length (by simp)
  rw [readRef_alloc_self] at hread
  exact ⟨st1, r1, [readRef st yr] ++ ext, hfold,
    by rw [hext, List.append_assoc], hlt, hread⟩

theorem run_methods_heap_inv (ask : String → AskOracle) (f : List ℚ → ℚ)
    (direction : String) (dists : List (String × Distribution))
    (xr yr : Ref) (iters : Nat) :
    ∀ (methods : List String) (st st' : Store) (rs : List Ref),
      xr < st.length → yr < st.length →
      run_methods_heap ask f direction dists xr yr iters methods st = some (st', rs) →
      ∃ cols, run_methods ask f direction dists (readRef st xr) (readRef st yr)
          iters methods = some cols ∧
        (∃ ext, st' = st ++ ext) ∧
        (∀ r ∈ rs, r < st'.length) ∧ rs.map (readRef st') = cols := by
  intro methods
  induction methods with
  | nil =>
    intro st st' rs hx hy h
    cases h
    refine ⟨[], rfl, ⟨[], by simp⟩, ?_, rfl⟩
    intro r hr
    cases hr
  | cons m rest ih =>
    intro st st' rs hx hy h
    unfold run_methods_heap at h
    cases hro : run_optimization_heap m (ask m) f direction dists st xr yr iters with
    | none => rw [hro] at h; exact Option.noConfusion h
    | some pr =>
      obtain ⟨st1, r⟩ := pr
      simp only [hro] at h
      cases hrm : run_methods_heap ask f direction dists xr yr iters rest st1 with
      | none => simp only [hrm] at h; exact Option.noConfusion h
      | some pr2 =>
        obtain ⟨st2, rs2⟩ := pr2
        simp only [hrm] at h
        cases h
        obtain ⟨ys', hpure, ⟨ext1, hext1⟩, hrlt, hread⟩ :=
          run_optimization_heap_inv m (ask m) f direction dists st xr yr iters
            st1 r hx hy hro
        have hle1 : st.length ≤ st1.length := by
          rw [hext1, List.length_append]
          exact Nat.le_add_right _ _
        have hx1 : xr < st1.length := Nat.lt_of_lt_of_le hx hle1
        have hy1 : yr < st1.length := Nat.lt_of_lt_of_le hy hle1
        obtain ⟨cols, hpure2, ⟨ext2, hext2⟩, hlts, hmap⟩ := ih st1 st' rs2 hx1 hy1 hrm
        have hr1x : readRef st1 xr = readRef st xr := by
          rw [hext1]; exact readRef_append st ext1 xr hx
        have hr1y : readRef st1 yr = readRef st yr := by
          rw [hext1]; exact readRef_append st ext1 yr hy
        rw [hr1x, hr1y] at hpure2
        have hcol : readRef st' r = ys' := by
          rw [hext2, readRef_append st1 ext2 r hrlt]
          exact hread
        refine ⟨ys' :: cols, ?_,
          ⟨ext1 ++ ext2, by rw [hext2, hext1, List.append_assoc]⟩, ?_, ?_⟩
        · unfold run_methods
          simp only [hpure, hpure2]
        · intro r' hr'
          rcases List.mem_cons.mp hr' with h' | h'
          · subst h'
            have : st1.length ≤ st'.length := by
              rw [hext2, List.length_append]
              exact Nat.le_add_right _ _
            exact Nat.lt_of_lt_of_le hrlt this
          · exact hlts r' h'
        · simp only [List.map_cons, hcol, hmap]

/-- **C9**: within one trial the driver never mutates the initial-batch
arrays: the whole trial body only allocates fresh cells (`st' = st ++ ext`),
so the `X_init` and `y_init` cells still hold their original values
afterwards; every configured strategy run starts from those same
initial-batch values, and the random baseline's column is exactly the pure
random search of those values — it shares no mutable state with any
strategy run, whose columns are likewise the pure runs from the same
values. -/
theorem run_trial_no_mutation (methods : List String) (ask : String → AskOracle)
    (f : List ℚ → ℚ) (direction : String) (dists : List (String × Distribution))
    (st : Store) (xr yr : Ref) (rdraws : List (List ℚ)) (iters : Nat)
    (st' : Store) (rs : List Ref)
    (hx : xr < st.length) (hy : yr < st.length)
    (h : run_trial_heap methods ask f direction dists st xr yr rdraws iters =
      some (st', rs)) :
    (∃ ext, st' = st ++ ext) ∧
      readRef st' xr = readRef st xr ∧ readRef st' yr = readRef st yr ∧
      ∃ cols, run_trial methods ask f direction dists (readRef st xr)
          (readRef st yr) rdraws iters = some cols ∧
        rs.map (readRef st') = cols := by
  obtain ⟨stR, rR, extR, hrand, hextR, hltR, hreadR⟩ :=
    random_search_heap_spec f st yr rdraws hy
  unfold run_trial_heap at h
  simp only [hrand] at h
  cases hrm : run_methods_heap ask f direction dists xr yr iters methods stR with
  | none => simp only [hrm] at h; exact Option.noConfusion h
  | some pr2 =>
    obtain ⟨st2, rs2⟩ := pr2
    simp only [hrm] at h
    cases h
    have hleR : st.length ≤ stR.length := by
      rw [hextR, List.length_append]
      exact Nat.le_add_right _ _
    have hxR : xr < stR.length := Nat.lt_of_lt_of_le hx hleR
    have hyR : yr < stR.length := Nat.lt_of_lt_of_le hy hleR
    obtain ⟨cols, hpure, ⟨ext2, hext2⟩, hlts, hmap⟩ :=
      run_methods_heap_inv ask f direction dists xr yr iters methods stR st' rs2
        hxR hyR hrm
    have hrRx : readRef stR xr = readRef st xr := by
      rw [hextR]; exact readRef_append st extR xr hx
    have hrRy : readRef stR yr = readRef st yr := by
      rw [hextR]; exact readRef_append st extR yr hy
    rw [hrRx, hrRy] at hpure
    obtain ⟨extA, hextA⟩ : ∃ ext, st' = st ++ ext :=
      ⟨extR ++ ext2, by rw [hext2, hextR, List.append_assoc]⟩
    have hcolR : readRef st' rR = random_search f (readRef st yr) rdraws := by
      rw [hext2, readRef_append stR ext2 rR hltR, hreadR]
    refine ⟨⟨extA, hextA⟩, ?_, ?_,
      random_search f (readRef st yr) rdraws :: cols, ?_, ?_⟩
    · rw [hextA]; exact readRef_append st extA xr hx
    · rw [hextA]; exact readRef_append st extA yr hy
    · unfold run_trial
      simp only [hpure]
    · simp only [List.map_cons, hcolR, hmap]

/-- Concrete heap-level trial result for the C9 witness. -/
def heapRes9 : Store × List Ref :=
  (run_trial_heap ["TPE"] (fun _ => ask0) (fun _ => 0) "minimize" dists0
    [[[1, 4]], [[2]]] 0 1 [[6, 3]] 1).getD ([], [])

theorem run_trial_no_mutation_witness :
    (0 < ([[[1, 4]], [[2]]] : Store).length) ∧
      (1 < ([[[1, 4]], [[2]]] : Store).length) ∧
      run_trial_heap ["TPE"] (fun _ => ask0) (fun _ => 0) "minimize" dists0
        [[[1, 4]], [[2]]] 0 1 [[6, 3]] 1 = some (heapRes9.1, heapRes9.2) ∧
      ((∃ ext, heapRes9.1 = ([[[1, 4]], [[2]]] : Store) ++ ext) ∧
        readRef heapRes9.1 0 = readRef [[[1, 4]], [[2]]] 0 ∧
        readRef heapRes9.1 1 = readRef [[[1, 4]], [[2]]] 1 ∧
        ∃ cols, run_trial ["TPE"] (fun _ => ask0) (fun _ => 0) "minimize" dists0
            (readRef [[[1, 4]], [[2]]] 0) (readRef [[[1, 4]], [[2]]] 1)
            [[6, 3]] 1 = some cols ∧
          heapRes9.2.map (readRef heapRes9.1) = cols) :=
  ⟨by decide, by decide, by decide,
    run_trial_no_mutation ["TPE"] (fun _ => ask0) (fun _ => 0) "minimize" dists0
      [[[1, 4]], [[2]]] 0 1 [[6, 3]] 1 heapRes9.1 heapRes9.2
      (by decide) (by decide) (by decide)⟩
